import Mathlib

/-!
Verification of the shepherd durable page-storage layer
(`src/dbms/storage/{page,integrity,meta}.rs`).

The backing file is modelled as a `List Nat` of bytes (each byte a `Nat`,
in-range bytes being `< 256`); machine integers are `Nat` with explicit
`% 256` where `u8` overflow matters.  Fallible operations return
`Except IoErr _`; operations whose post-call file state matters even on
failure return an `Option IoErr × List Nat` pair (error, file after the
call).  In the Rust source every error path of the page layer returns
before any byte of the file is modified (the bound check precedes the
seek/write), so those paths carry the unchanged file.  `File::sync_all`
only forces data to the medium and never alters contents, so it is the
identity here.
-/

namespace Shepherd

/-- Page size in bytes (`page::SIZE = 8192` in `src/dbms/storage/page.rs`). -/
def PAGE_SIZE : Nat := 8192

/-- The storage-layer failures: `io::Error::other("tried to read distant page")`,
`("tried to write distant page")` and `("tried to copy page to itself")`. -/
inductive IoErr
  | readOutOfRange
  | writeOutOfRange
  | selfCopy
deriving DecidableEq, Repr

/-- The `PAGE_SIZE` bytes stored at page `p`: what seeking to
`p * PAGE_SIZE` and reading `PAGE_SIZE` bytes yields. -/
def pageBytes (f : List Nat) (p : Nat) : List Nat :=
  (f.drop (p * PAGE_SIZE)).take PAGE_SIZE

/-- Overwrite the bytes of `f` at positions `[pos, pos + data.length)` with
`data`, extending the file if the write reaches past the current end
(POSIX write-at-offset semantics; holes read as zero). -/
def writeAt (f : List Nat) (pos : Nat) (data : List Nat) : List Nat :=
  f.take pos ++ List.replicate (pos - f.length) 0 ++ data ++ f.drop (pos + data.length)

namespace page

/-- `page::read`: fail when `page + 1 > file_len / PAGE_SIZE`, else seek to
`page * PAGE_SIZE` and read exactly `PAGE_SIZE` bytes (the bound check
guarantees they exist, so `read_exact` cannot fall short). -/
def read (f : List Nat) (p : Nat) : Except IoErr (List Nat) :=
  if p + 1 > f.length / PAGE_SIZE then .error .readOutOfRange
  else .ok (pageBytes f p)

/-- `page::write`: fail when `page > file_len / PAGE_SIZE`, else seek to
`page * PAGE_SIZE` and write the `PAGE_SIZE`-byte buffer. -/
def write (f : List Nat) (p : Nat) (buf : List Nat) : Except IoErr (List Nat) :=
  if p > f.length / PAGE_SIZE then .error .writeOutOfRange
  else .ok (writeAt f (p * PAGE_SIZE) buf)

/-- `page::copy`: reject `src == dst`, else read `src` into a scratch buffer
and write it to `dst`.  Result is `(error?, file after the call)`; every
error path of the source returns before modifying the file. -/
def copy (f : List Nat) (src dst : Nat) : Option IoErr × List Nat :=
  if src = dst then (some .selfCopy, f)
  else
    match read f src with
    | .error e => (some e, f)
    | .ok buf =>
      match write f dst buf with
      | .error e => (some e, f)
      | .ok f2 => (none, f2)

end page

namespace integrity

/-- `integrity::Error`. -/
inductive Error
  | BadChecksum
deriving DecidableEq, Repr

/-- `integrity::Register`: the transient bit-serial CRC accumulator.
`current` is the `u8` register, `n` the input, `cursor = (bit, byteIdx)`
the position of the next look-ahead bit. -/
structure Register where
  current : Nat
  n : List Nat
  cursor : Nat × Nat

/-- `Register::new`: seed the register with the first input byte (0 when
the input is empty); the cursor starts at bit 7 of byte 1. -/
def Register.new (n : List Nat) : Register :=
  { current := match n with | [] => 0 | b :: _ => b
    n := n
    cursor := (7, 1) }

/-- `Register::advance` on the cursor pair: step to the next lower bit, or
to bit 7 of the next byte. -/
def advanceC (c : Nat × Nat) : Nat × Nat :=
  if c.1 = 0 then (7, c.2 + 1) else (c.1 - 1, c.2)

/-- `Register::pop`: the bit at the cursor (`n[byteIdx] >> bit & 1`, or 0
once the cursor has run off the input), advancing the cursor. -/
def Register.pop (r : Register) : Nat × Register :=
  let bit := if r.cursor.2 < r.n.length then r.n.getD r.cursor.2 0 >>> r.cursor.1 &&& 1 else 0
  (bit, { r with cursor := advanceC r.cursor })

/-- `Register::shift`: `none` once the cursor's byte index passes the input
length; otherwise emit the register's top bit and shift the popped
look-ahead bit in from the right (`u8` shift discards the top bit). -/
def Register.shift (r : Register) : Option (Nat × Register) :=
  if r.cursor.2 > r.n.length then none
  else
    let bit := r.current >>> 7
    let p := r.pop
    some (bit, { p.2 with current := p.1 ||| ((r.current <<< 1) % 256) })

/-- The `while let Some(bit) = register.shift()` loop of `integrity::crc`,
with explicit fuel; each iteration XORs the polynomial into the register
when the shifted-out top bit was set.  The loop runs exactly
`8 * n.length` iterations before `shift` returns `none` (the cursor walks
bit 7 of byte 1 through bit 0 of byte `n.length`), so that fuel is exact. -/
def crcLoop (poly : Nat) : Nat → Register → Nat
  | 0, r => r.current
  | fuel + 1, r =>
    match r.shift with
    | none => r.current
    | some (bit, r1) =>
      crcLoop poly fuel (if bit = 1 then { r1 with current := r1.current ^^^ poly } else r1)

/-- `integrity::crc`: bit-serial CRC-8 of `n` under `poly`. -/
def crc (poly : Nat) (n : List Nat) : Nat :=
  crcLoop poly (8 * n.length) (Register.new n)

end integrity

namespace metapage

/-- `meta::CRC_POLY`. -/
def CRC_POLY : Nat := 0xB0

/-- `meta::write` (`meta.rs` lines 7-16): copy main (`pair.1`) to backup
(`pair.2`), sync, then write `payload ++ [crc payload]` to main.  Result is
`(error?, file after the call)`: a failing copy leaves the file as it was,
a failing main write leaves the file as the copy left it. -/
def write (f : List Nat) (pair : Nat × Nat) (buf : List Nat) : Option IoErr × List Nat :=
  match page.copy f pair.1 pair.2 with
  | (some e, f1) => (some e, f1)
  | (none, f1) =>
    let pg := buf ++ [integrity.crc CRC_POLY buf]
    match page.write f1 pair.1 pg with
    | .error e => (some e, f1)
    | .ok f2 => (none, f2)

/-- `meta::read` (`meta.rs` lines 18-31): read main; when its trailing CRC
byte mismatches the CRC of its leading `PAGE_SIZE - 1` bytes, read backup,
re-stamp its CRC and write the reconstituted page back to main.  On
success returns `(out buffer, file after the call)`. -/
def read (f : List Nat) (pair : Nat × Nat) : Except IoErr (List Nat × List Nat) :=
  match page.read f pair.1 with
  | .error e => .error e
  | .ok pg =>
    if pg.getD (PAGE_SIZE - 1) 0 ≠ integrity.crc CRC_POLY (pg.take (PAGE_SIZE - 1)) then
      match page.read f pair.2 with
      | .error e => .error e
      | .ok pg2 =>
        let pg3 := pg2.take (PAGE_SIZE - 1) ++ [integrity.crc CRC_POLY (pg2.take (PAGE_SIZE - 1))]
        match page.write f pair.1 pg3 with
        | .error e => .error e
        | .ok f2 => .ok (pg3.take (PAGE_SIZE - 1), f2)
    else .ok (pg.take (PAGE_SIZE - 1), f)

end metapage

namespace slot

/-- `slot::CRC_POLY`. -/
def CRC_POLY : Nat := 0x07

/-- `slot::Block`: a `(size, offset)` slot descriptor (`u16` fields). -/
structure Block where
  offset : Nat
  size : Nat

/-- `u16::to_le_bytes`. -/
def u16le (v : Nat) : List Nat := [v % 256, v / 256 % 256]

/-- `copy_from_slice` of consecutive bytes starting at `base`. -/
def setBytes (l : List Nat) (base : Nat) : List Nat → List Nat
  | [] => l
  | b :: bs => setBytes (l.set base b) (base + 1) bs

/-- The `for (index, block) in blocks.iter().enumerate()` loop of
`slot::write_blocks`: each slot's size then offset is serialized
little-endian at `base = 3 + 4 * index`. -/
def write_blocks_loop (pg : List Nat) (blocks : List Block) (index : Nat) : List Nat :=
  match blocks with
  | [] => pg
  | b :: rest =>
    let base := 3 + 4 * index
    let p1 := setBytes pg base (u16le b.size)
    let p2 := setBytes p1 (base + 2) (u16le b.offset)
    write_blocks_loop p2 rest (index + 1)

/-- `slot::write_checksum`: store the CRC-8 of bytes `[1, PAGE_SIZE)` into
byte 0. -/
def write_checksum (pg : List Nat) : List Nat :=
  pg.set 0 (integrity.crc CRC_POLY (pg.drop 1))

/-- `slot::write_blocks`: serialize the slot table, then refresh the
whole-page checksum. -/
def write_blocks (pg : List Nat) (blocks : List Block) : List Nat :=
  write_checksum (write_blocks_loop pg blocks 0)

/-- `slot::verify_checksum`: recompute the CRC-8 of bytes `[1, PAGE_SIZE)`
and compare it with byte 0. -/
def verify_checksum (pg : List Nat) : Except integrity.Error Unit :=
  if pg.getD 0 0 = integrity.crc CRC_POLY (pg.drop 1) then .ok ()
  else .error .BadChecksum

end slot

/-- Flip bit `j` of byte `i` of a buffer (single-bit corruption). -/
def flipBit (l : List Nat) (i j : Nat) : List Nat :=
  l.set i (l.getD i 0 ^^^ (1 <<< j))

/-! ## Basic facts about the file model -/

theorem PAGE_SIZE_pos : 0 < PAGE_SIZE := by decide

theorem writeAt_length (f : List Nat) (pos : Nat) (data : List Nat)
    (h : pos ≤ f.length) :
    (writeAt f pos data).length = max f.length (pos + data.length) := by
  simp only [writeAt, List.length_append, List.length_take, List.length_drop,
    List.length_replicate]
  omega

/-- Reading back the page just written yields the written buffer. -/
theorem pageBytes_writeAt_self (f : List Nat) (p : Nat) (data : List Nat)
    (hd : data.length = PAGE_SIZE) (h : p * PAGE_SIZE ≤ f.length) :
    pageBytes (writeAt f (p * PAGE_SIZE) data) p = data := by
  have hz : p * PAGE_SIZE - f.length = 0 := by omega
  have hlen : (f.take (p * PAGE_SIZE)).length = p * PAGE_SIZE := by
    simp [List.length_take]; omega
  simp only [pageBytes, writeAt, hz, List.replicate_zero, List.append_nil,
    List.nil_append]
  rw [List.append_assoc, List.drop_left' hlen, List.take_left' hd]

theorem inRange_read (f : List Nat) (p : Nat) (h : p + 1 ≤ f.length / PAGE_SIZE) :
    (p + 1) * PAGE_SIZE ≤ f.length :=
  (Nat.le_div_iff_mul_le PAGE_SIZE_pos).mp h

theorem pageBytes_length (f : List Nat) (p : Nat)
    (h : p + 1 ≤ f.length / PAGE_SIZE) : (pageBytes f p).length = PAGE_SIZE := by
  have := inRange_read f p h
  simp only [pageBytes, List.length_take, List.length_drop]
  have : p * PAGE_SIZE + PAGE_SIZE ≤ f.length := by
    have h2 : (p + 1) * PAGE_SIZE = p * PAGE_SIZE + PAGE_SIZE := by ring
    omega
  omega

/-! ## C5, C6: page-level bounds and roundtrip -/

/-- C5: page read fails with OutOfRange exactly when `page_no + 1 > page_count`
(`page_count = file length / PAGE_SIZE`) and otherwise returns the stored page
bytes; page write fails with OutOfRange exactly when `page_no > page_count`,
and writing at `page_no = page_count` succeeds and appends exactly one page,
making the page count `page_count + 1`. -/
theorem spec_C5 (f : List Nat) (p : Nat) (buf : List Nat)
    (hbuf : buf.length = PAGE_SIZE) :
    (page.read f p = .error .readOutOfRange ↔ f.length / PAGE_SIZE < p + 1)
    ∧ (p + 1 ≤ f.length / PAGE_SIZE → page.read f p = .ok (pageBytes f p))
    ∧ (page.write f p buf = .error .writeOutOfRange ↔ f.length / PAGE_SIZE < p)
    ∧ page.write f (f.length / PAGE_SIZE) buf
        = .ok (writeAt f (f.length / PAGE_SIZE * PAGE_SIZE) buf)
    ∧ (writeAt f (f.length / PAGE_SIZE * PAGE_SIZE) buf).length / PAGE_SIZE
        = f.length / PAGE_SIZE + 1 := by
  have hdm := Nat.div_add_mod f.length PAGE_SIZE
  have hml : f.length % PAGE_SIZE < PAGE_SIZE := Nat.mod_lt _ PAGE_SIZE_pos
  have hle : f.length / PAGE_SIZE * PAGE_SIZE ≤ f.length := Nat.div_mul_le_self _ _
  refine ⟨?_, ?_, ?_, ?_, ?_⟩
  · unfold page.read
    split
    · simp; omega
    · simp; omega
  · intro h
    unfold page.read
    split
    · omega
    · rfl
  · unfold page.write
    split
    · simp; omega
    · simp; omega
  · unfold page.write
    split
    · omega
    · rfl
  · rw [writeAt_length f _ buf hle, hbuf]
    have h8 : PAGE_SIZE = 8192 := rfl
    rw [h8] at hdm hml hle ⊢
    omega

/-- Witness for C5 at a concrete input: the empty file and an all-ones page
buffer, page number 0. -/
theorem spec_C5_witness :
    (List.replicate PAGE_SIZE 1).length = PAGE_SIZE
    ∧ ((page.read ([] : List Nat) 0 = .error .readOutOfRange
          ↔ ([] : List Nat).length / PAGE_SIZE < 0 + 1)
      ∧ (0 + 1 ≤ ([] : List Nat).length / PAGE_SIZE →
          page.read ([] : List Nat) 0 = .ok (pageBytes [] 0))
      ∧ (page.write [] 0 (List.replicate PAGE_SIZE 1) = .error .writeOutOfRange
          ↔ ([] : List Nat).length / PAGE_SIZE < 0)
      ∧ page.write [] (([] : List Nat).length / PAGE_SIZE) (List.replicate PAGE_SIZE 1)
          = .ok (writeAt [] (([] : List Nat).length / PAGE_SIZE * PAGE_SIZE)
              (List.replicate PAGE_SIZE 1))
      ∧ (writeAt [] (([] : List Nat).length / PAGE_SIZE * PAGE_SIZE)
            (List.replicate PAGE_SIZE 1)).length / PAGE_SIZE
          = ([] : List Nat).length / PAGE_SIZE + 1) :=
  ⟨List.length_replicate _ _, spec_C5 [] 0 _ (List.length_replicate _ _)⟩

/-- C6: for `page_no ≤ page_count`, writing a `PAGE_SIZE`-byte buffer there
and reading it back succeeds and returns exactly the written bytes. -/
theorem spec_C6 (f : List Nat) (p : Nat) (buf : List Nat)
    (hbuf : buf.length = PAGE_SIZE) (hp : p ≤ f.length / PAGE_SIZE) :
    page.write f p buf = .ok (writeAt f (p * PAGE_SIZE) buf)
    ∧ page.read (writeAt f (p * PAGE_SIZE) buf) p = .ok buf := by
  have hpos : p * PAGE_SIZE ≤ f.length := by
    calc p * PAGE_SIZE ≤ f.length / PAGE_SIZE * PAGE_SIZE :=
          Nat.mul_le_mul_right _ hp
      _ ≤ f.length := Nat.div_mul_le_self _ _
  have hlen : (writeAt f (p * PAGE_SIZE) buf).length = max f.length (p * PAGE_SIZE + buf.length) :=
    writeAt_length f _ buf hpos
  have hrange : p + 1 ≤ (writeAt f (p * PAGE_SIZE) buf).length / PAGE_SIZE := by
    rw [Nat.le_div_iff_mul_le PAGE_SIZE_pos, hlen, hbuf]
    have : (p + 1) * PAGE_SIZE = p * PAGE_SIZE + PAGE_SIZE := by ring
    omega
  constructor
  · unfold page.write
    split
    · omega
    · rfl
  · unfold page.read
    split
    · omega
    · rw [pageBytes_writeAt_self f p buf hbuf hpos]

/-- Witness for C6: write an all-twos page at page 0 of the empty file and
read it back. -/
theorem spec_C6_witness :
    (List.replicate PAGE_SIZE 2).length = PAGE_SIZE
    ∧ 0 ≤ ([] : List Nat).length / PAGE_SIZE
    ∧ (page.write [] 0 (List.replicate PAGE_SIZE 2)
        = .ok (writeAt [] (0 * PAGE_SIZE) (List.replicate PAGE_SIZE 2))
      ∧ page.read (writeAt [] (0 * PAGE_SIZE) (List.replicate PAGE_SIZE 2)) 0
        = .ok (List.replicate PAGE_SIZE 2)) :=
  ⟨List.length_replicate _ _, Nat.zero_le _,
    spec_C6 [] 0 _ (List.length_replicate _ _) (Nat.zero_le _)⟩

/-! ## C9: copy error contract -/

/-- C9: `copy(p, p)` always fails with SelfCopy and leaves the file's
contents unchanged; when source and destination differ, a source-side read
error is returned (in preference to any destination-side write error) and the
file is unchanged. -/
theorem spec_C9 (f : List Nat) :
    (∀ p, page.copy f p p = (some IoErr.selfCopy, f))
    ∧ (∀ src dst e, src ≠ dst → page.read f src = .error e →
        page.copy f src dst = (some e, f)) := by
  constructor
  · intro p
    simp [page.copy]
  · intro src dst e hne hr
    simp [page.copy, hne, hr]

/-- Witness for C9 at concrete inputs: a self-copy at page 0 of the empty
file, and a copy from out-of-range page 1 to page 0. -/
theorem spec_C9_witness :
    page.copy ([] : List Nat) 0 0 = (some IoErr.selfCopy, [])
    ∧ page.copy ([] : List Nat) 1 0 = (some IoErr.readOutOfRange, []) :=
  ⟨(spec_C9 []).1 0, (spec_C9 []).2 1 0 IoErr.readOutOfRange (by decide) (by rfl)⟩

/-! ## C3, C4: meta write failure contracts -/

/-- A failing `page::copy` leaves the file unchanged (every error path of
the source returns before any write). -/
theorem copy_snd_of_error (f : List Nat) (s d : Nat) :
    (page.copy f s d).1 = none ∨ (page.copy f s d).2 = f := by
  unfold page.copy
  split
  · right; rfl
  · rcases hr : page.read f s with e | buf
    · simp [hr]
    · rcases hw : page.write f d buf with e | f2
      · simp [hr, hw]
      · simp [hr, hw]

/-- C3: if step 1 of `meta::write` (copying main to backup, then flushing)
fails, the whole file — in particular both the main and the backup page —
still holds exactly what it held before the call. -/
theorem spec_C3 (f : List Nat) (pair : Nat × Nat) (v : List Nat) (e : IoErr)
    (h : (page.copy f pair.1 pair.2).1 = some e) :
    metapage.write f pair v = (some e, f)
    ∧ pageBytes (metapage.write f pair v).2 pair.1 = pageBytes f pair.1
    ∧ pageBytes (metapage.write f pair v).2 pair.2 = pageBytes f pair.2 := by
  have hsnd : (page.copy f pair.1 pair.2).2 = f := by
    rcases copy_snd_of_error f pair.1 pair.2 with h0 | h0
    · simp [h] at h0
    · exact h0
  have hcopy : page.copy f pair.1 pair.2 = (some e, f) :=
    Prod.ext h hsnd
  have hw : metapage.write f pair v = (some e, f) := by
    unfold metapage.write
    rw [hcopy]
  exact ⟨hw, by rw [hw], by rw [hw]⟩

/-- Witness for C3: a self-copy failure (pair `(0, 0)` on the empty file). -/
theorem spec_C3_witness :
    (page.copy ([] : List Nat) 0 0).1 = some IoErr.selfCopy
    ∧ (metapage.write ([] : List Nat) (0, 0) [] = (some IoErr.selfCopy, [])
      ∧ pageBytes (metapage.write ([] : List Nat) (0, 0) []).2 0 = pageBytes [] 0
      ∧ pageBytes (metapage.write ([] : List Nat) (0, 0) []).2 0 = pageBytes [] 0) :=
  ⟨rfl, spec_C3 [] (0, 0) [] IoErr.selfCopy rfl⟩

/-- C4, amended: when the main page number is out of range, the failed
`meta::write` call leaves the file unchanged, so the backup page holds
exactly the bytes that the *backup* page held immediately before the call
(not the bytes of the out-of-range main page, as the original claim said:
the copy step fails on reading main before anything is written). -/
theorem spec_C4 (f : List Nat) (pair : Nat × Nat) (v : List Nat)
    (h : f.length / PAGE_SIZE < pair.1 + 1) :
    (metapage.write f pair v).1 ≠ none
    ∧ (metapage.write f pair v).2 = f
    ∧ pageBytes (metapage.write f pair v).2 pair.2 = pageBytes f pair.2 := by
  have hr : page.read f pair.1 = .error .readOutOfRange := by
    unfold page.read
    rw [if_pos (by omega)]
  have hcopy : ∃ e, page.copy f pair.1 pair.2 = (some e, f) := by
    unfold page.copy
    split
    · exact ⟨.selfCopy, rfl⟩
    · rw [hr]
      exact ⟨.readOutOfRange, rfl⟩
  obtain ⟨e, hcopy⟩ := hcopy
  have hw : metapage.write f pair v = (some e, f) := by
    unfold metapage.write
    rw [hcopy]
  exact ⟨by rw [hw]; simp, by rw [hw], by rw [hw]⟩

/-- Witness for the amended C4: a one-page all-ones file, main page 2 (out
of range), backup page 0. -/
theorem spec_C4_witness :
    (List.replicate PAGE_SIZE 1).length / PAGE_SIZE < 2 + 1
    ∧ ((metapage.write (List.replicate PAGE_SIZE 1) (2, 0) []).1 ≠ none
      ∧ (metapage.write (List.replicate PAGE_SIZE 1) (2, 0) []).2
          = List.replicate PAGE_SIZE 1
      ∧ pageBytes (metapage.write (List.replicate PAGE_SIZE 1) (2, 0) []).2 0
          = pageBytes (List.replicate PAGE_SIZE 1) 0) := by
  have h : (List.replicate PAGE_SIZE 1).length / PAGE_SIZE < 2 + 1 := by
    rw [List.length_replicate, Nat.div_self PAGE_SIZE_pos]
    omega
  exact ⟨h, spec_C4 (List.replicate PAGE_SIZE 1) (2, 0) [] h⟩

/-- Counterexample to C4 as stated: a one-page file of all-ones bytes, main
page 2 (out of range), backup page 0.  The meta write fails, but backup then
holds its own prior all-ones page, not the bytes main held (an out-of-range
page holds no bytes at all). -/
theorem spec_C4_counterexample :
    (metapage.write (List.replicate PAGE_SIZE 1) (2, 0)
        (List.replicate (PAGE_SIZE - 1) 0)).1 ≠ none
    ∧ pageBytes (metapage.write (List.replicate PAGE_SIZE 1) (2, 0)
          (List.replicate (PAGE_SIZE - 1) 0)).2 0
        ≠ pageBytes (List.replicate PAGE_SIZE 1) 2 := by
  have hr : page.read (List.replicate PAGE_SIZE 1) 2 = .error .readOutOfRange := by
    unfold page.read
    rw [if_pos (by rw [List.length_replicate, Nat.div_self PAGE_SIZE_pos]; omega)]
  have hw : metapage.write (List.replicate PAGE_SIZE 1) (2, 0)
      (List.replicate (PAGE_SIZE - 1) 0)
      = (some .readOutOfRange, List.replicate PAGE_SIZE 1) := by
    unfold metapage.write page.copy
    rw [if_neg (by decide), hr]
  constructor
  · rw [hw]; simp
  · rw [hw]
    intro hc
    have hl := congrArg List.length hc
    simp only [pageBytes, List.length_take, List.length_drop,
      List.length_replicate, PAGE_SIZE] at hl
    omega

/-! ## C8: crc determinism, empty input, and known vectors -/

/-- C8: `crc` is deterministic (equal polynomial and input give an equal
result); `crc(poly, [])` is 0 for every polynomial; and the two known
vectors from the test suite hold. -/
theorem spec_C8 :
    (∀ p₁ p₂ d₁ d₂, p₁ = p₂ → d₁ = d₂ →
        integrity.crc p₁ d₁ = integrity.crc p₂ d₂)
    ∧ (∀ p, integrity.crc p [] = 0)
    ∧ integrity.crc 0x07 [0xAB, 0xCD, 0xEF] = 0x23
    ∧ integrity.crc 0x2F [0xAB, 0xCD, 0xEF, 0xAA, 0xBB, 0xCC] = 0xB0 := by
  refine ⟨?_, ?_, ?_, ?_⟩
  · intro p₁ p₂ d₁ d₂ hp hd
    rw [hp, hd]
  · intro p
    rfl
  · decide
  · decide

/-- Witness for C8's determinism conjunct at a concrete input. -/
theorem spec_C8_witness :
    integrity.crc 0x07 [0xAB, 0xCD, 0xEF] = integrity.crc 0x07 [0xAB, 0xCD, 0xEF] :=
  spec_C8.1 0x07 0x07 [0xAB, 0xCD, 0xEF] [0xAB, 0xCD, 0xEF] rfl rfl

/-! ## C1, C2: meta-layer read and write -/

/-- A stored meta page is CRC-valid when its trailing byte equals the CRC-8
(poly `0xB0`) of its leading `PAGE_SIZE - 1` payload bytes. -/
def metapage.crcValid (pg : List Nat) : Prop :=
  pg.getD (PAGE_SIZE - 1) 0 = integrity.crc metapage.CRC_POLY (pg.take (PAGE_SIZE - 1))

/-- The page `meta::read` reconstitutes from the backup: the backup's
payload re-stamped with a freshly recomputed CRC (line 26 of `meta.rs`). -/
def metapage.restamp (pg : List Nat) : List Nat :=
  pg.take (PAGE_SIZE - 1)
    ++ [integrity.crc metapage.CRC_POLY (pg.take (PAGE_SIZE - 1))]

theorem page_read_ok (f : List Nat) (p : Nat) (h : p + 1 ≤ f.length / PAGE_SIZE) :
    page.read f p = .ok (pageBytes f p) := by
  unfold page.read
  rw [if_neg (by omega)]

theorem page_write_ok (f : List Nat) (p : Nat) (buf : List Nat)
    (h : p ≤ f.length / PAGE_SIZE) :
    page.write f p buf = .ok (writeAt f (p * PAGE_SIZE) buf) := by
  unfold page.write
  rw [if_neg (by omega)]

theorem page_copy_ok (f : List Nat) (src dst : Nat) (hne : src ≠ dst)
    (hs : src + 1 ≤ f.length / PAGE_SIZE) (hd : dst ≤ f.length / PAGE_SIZE) :
    page.copy f src dst = (none, writeAt f (dst * PAGE_SIZE) (pageBytes f src)) := by
  unfold page.copy
  rw [if_neg hne]
  simp only [page_read_ok f src hs, page_write_ok f dst (pageBytes f src) hd]

/-- A trailing-CRC page built from a `PAGE_SIZE - 1`-byte payload is
CRC-valid, and its leading payload is recovered by `take`. -/
theorem crcValid_payload (v : List Nat) (hv : v.length = PAGE_SIZE - 1) :
    metapage.crcValid (v ++ [integrity.crc metapage.CRC_POLY v])
    ∧ (v ++ [integrity.crc metapage.CRC_POLY v]).take (PAGE_SIZE - 1) = v := by
  have htake : (v ++ [integrity.crc metapage.CRC_POLY v]).take (PAGE_SIZE - 1) = v :=
    List.take_left' hv
  refine ⟨?_, htake⟩
  unfold metapage.crcValid
  rw [htake]
  simp [List.getD, List.getElem?_append_right (le_of_eq hv), hv]

/-- C2: for a distinct in-range page pair, a successful meta write of a
`PAGE_SIZE - 1`-byte payload followed by a meta read on the same pair
succeeds and returns exactly that payload (leaving the file as the write
left it). -/
theorem spec_C2 (f : List Nat) (pair : Nat × Nat) (v : List Nat)
    (hv : v.length = PAGE_SIZE - 1) (hne : pair.1 ≠ pair.2)
    (hm : pair.1 + 1 ≤ f.length / PAGE_SIZE)
    (hb : pair.2 + 1 ≤ f.length / PAGE_SIZE) :
    ∃ F, metapage.write f pair v = (none, F)
    ∧ metapage.read F pair = .ok (v, F) := by
  have hS : (1 : Nat) ≤ PAGE_SIZE := by decide
  have hmain_len : (pageBytes f pair.1).length = PAGE_SIZE := pageBytes_length f _ hm
  have hmul1 : (pair.1 + 1) * PAGE_SIZE = pair.1 * PAGE_SIZE + PAGE_SIZE := by ring
  have hmul2 : (pair.2 + 1) * PAGE_SIZE = pair.2 * PAGE_SIZE + PAGE_SIZE := by ring
  have hrm := inRange_read f pair.1 hm
  have hrb := inRange_read f pair.2 hb
  have hb_pos : pair.2 * PAGE_SIZE ≤ f.length := by omega
  -- step 1: the copy to backup succeeds and preserves the file length
  have hf1len : (writeAt f (pair.2 * PAGE_SIZE) (pageBytes f pair.1)).length
      = f.length := by
    rw [writeAt_length f _ _ hb_pos, hmain_len]
    omega
  -- step 2: the main write succeeds
  have hpglen : (v ++ [integrity.crc metapage.CRC_POLY v]).length = PAGE_SIZE := by
    simp [hv]
    omega
  have hm_pos : pair.1 * PAGE_SIZE
      ≤ (writeAt f (pair.2 * PAGE_SIZE) (pageBytes f pair.1)).length := by
    rw [hf1len]
    omega
  have hmw : metapage.write f pair v
      = (none, writeAt (writeAt f (pair.2 * PAGE_SIZE) (pageBytes f pair.1))
          (pair.1 * PAGE_SIZE) (v ++ [integrity.crc metapage.CRC_POLY v])) := by
    unfold metapage.write
    simp only [page_copy_ok f pair.1 pair.2 hne hm (by omega)]
    simp only [page_write_ok _ pair.1 _ (by rw [hf1len]; omega)]
  have hf2len : (writeAt (writeAt f (pair.2 * PAGE_SIZE) (pageBytes f pair.1))
      (pair.1 * PAGE_SIZE) (v ++ [integrity.crc metapage.CRC_POLY v])).length
      = f.length := by
    rw [writeAt_length _ _ _ hm_pos, hpglen, hf1len]
    omega
  -- the read: main now holds the freshly stamped page, which is CRC-valid
  have hread_main : page.read (writeAt (writeAt f (pair.2 * PAGE_SIZE)
        (pageBytes f pair.1)) (pair.1 * PAGE_SIZE)
        (v ++ [integrity.crc metapage.CRC_POLY v])) pair.1
      = .ok (v ++ [integrity.crc metapage.CRC_POLY v]) := by
    rw [page_read_ok _ pair.1 (by rw [hf2len]; omega),
      pageBytes_writeAt_self _ pair.1 _ hpglen hm_pos]
  obtain ⟨hvalid, htake⟩ := crcValid_payload v hv
  unfold metapage.crcValid at hvalid
  refine ⟨_, hmw, ?_⟩
  unfold metapage.read
  simp only [hread_main]
  rw [if_neg (not_not_intro hvalid), htake]

/-- Witness for C2: a fresh two-page file, pair `(0, 1)`, all-threes
payload. -/
theorem spec_C2_witness :
    (List.replicate (PAGE_SIZE - 1) 3).length = PAGE_SIZE - 1
    ∧ (0 : Nat) ≠ 1
    ∧ 0 + 1 ≤ (List.replicate (2 * PAGE_SIZE) 7).length / PAGE_SIZE
    ∧ 1 + 1 ≤ (List.replicate (2 * PAGE_SIZE) 7).length / PAGE_SIZE
    ∧ (∃ F, metapage.write (List.replicate (2 * PAGE_SIZE) 7) (0, 1)
          (List.replicate (PAGE_SIZE - 1) 3) = (none, F)
      ∧ metapage.read F (0, 1) = .ok (List.replicate (PAGE_SIZE - 1) 3, F)) := by
  have h1 : (List.replicate (PAGE_SIZE - 1) 3).length = PAGE_SIZE - 1 :=
    List.length_replicate _ _
  have h3 : 0 + 1 ≤ (List.replicate (2 * PAGE_SIZE) 7).length / PAGE_SIZE := by
    rw [List.length_replicate]; decide
  have h4 : 1 + 1 ≤ (List.replicate (2 * PAGE_SIZE) 7).length / PAGE_SIZE := by
    rw [List.length_replicate]; decide
  exact ⟨h1, by decide, h3, h4,
    spec_C2 (List.replicate (2 * PAGE_SIZE) 7) (0, 1) _ h1 (by decide) h3 h4⟩

/-- C1: for a distinct in-range page pair, when main's stored trailing CRC
byte matches the CRC-8 (poly 0xB0) of its leading payload, meta read returns
main's payload and leaves the file unchanged; on a mismatch it returns
backup's payload and rewrites main's page to backup's payload followed by a
freshly recomputed valid CRC; hence whenever at least one of main and backup
is CRC-valid, the returned payload is a CRC-valid page's payload. -/
theorem spec_C1 (f : List Nat) (pair : Nat × Nat)
    (hne : pair.1 ≠ pair.2)
    (hm : pair.1 + 1 ≤ f.length / PAGE_SIZE)
    (hb : pair.2 + 1 ≤ f.length / PAGE_SIZE) :
    (metapage.crcValid (pageBytes f pair.1) →
        metapage.read f pair
          = .ok ((pageBytes f pair.1).take (PAGE_SIZE - 1), f))
    ∧ (¬ metapage.crcValid (pageBytes f pair.1) →
        metapage.read f pair
          = .ok ((pageBytes f pair.2).take (PAGE_SIZE - 1),
              writeAt f (pair.1 * PAGE_SIZE) (metapage.restamp (pageBytes f pair.2)))
        ∧ pageBytes (writeAt f (pair.1 * PAGE_SIZE)
              (metapage.restamp (pageBytes f pair.2))) pair.1
            = metapage.restamp (pageBytes f pair.2)
        ∧ metapage.crcValid (metapage.restamp (pageBytes f pair.2)))
    ∧ ((metapage.crcValid (pageBytes f pair.1)
          ∨ metapage.crcValid (pageBytes f pair.2)) →
        ∃ pg out F, metapage.crcValid pg
          ∧ metapage.read f pair = .ok (out, F)
          ∧ out = pg.take (PAGE_SIZE - 1)) := by
  have hS : (1 : Nat) ≤ PAGE_SIZE := by decide
  have hread_m := page_read_ok f pair.1 hm
  have hread_b := page_read_ok f pair.2 hb
  have hblen : (pageBytes f pair.2).length = PAGE_SIZE := pageBytes_length f pair.2 hb
  have hbtake_len : ((pageBytes f pair.2).take (PAGE_SIZE - 1)).length = PAGE_SIZE - 1 := by
    rw [List.length_take]
    omega
  have hrm := inRange_read f pair.1 hm
  have hmul1 : (pair.1 + 1) * PAGE_SIZE = pair.1 * PAGE_SIZE + PAGE_SIZE := by ring
  have hmpos : pair.1 * PAGE_SIZE ≤ f.length := by omega
  have hlit_len : ((pageBytes f pair.2).take (PAGE_SIZE - 1)
      ++ [integrity.crc metapage.CRC_POLY ((pageBytes f pair.2).take (PAGE_SIZE - 1))]).length
      = PAGE_SIZE := by
    rw [List.length_append, hbtake_len]
    simp
    omega
  have hwr := page_write_ok f pair.1
    ((pageBytes f pair.2).take (PAGE_SIZE - 1)
      ++ [integrity.crc metapage.CRC_POLY ((pageBytes f pair.2).take (PAGE_SIZE - 1))])
    (by omega)
  -- branch: main CRC-valid
  have h1 : metapage.crcValid (pageBytes f pair.1) →
      metapage.read f pair
        = .ok ((pageBytes f pair.1).take (PAGE_SIZE - 1), f) := by
    intro hval
    have hval' : (pageBytes f pair.1).getD (PAGE_SIZE - 1) 0
        = integrity.crc metapage.CRC_POLY ((pageBytes f pair.1).take (PAGE_SIZE - 1)) := hval
    unfold metapage.read
    simp only [hread_m]
    rw [if_neg (not_not_intro hval')]
  -- branch: main CRC-invalid (repair from backup)
  have h2 : ¬ metapage.crcValid (pageBytes f pair.1) →
      metapage.read f pair
        = .ok ((pageBytes f pair.2).take (PAGE_SIZE - 1),
            writeAt f (pair.1 * PAGE_SIZE) (metapage.restamp (pageBytes f pair.2))) := by
    intro hnv
    have hnv' : (pageBytes f pair.1).getD (PAGE_SIZE - 1) 0
        ≠ integrity.crc metapage.CRC_POLY ((pageBytes f pair.1).take (PAGE_SIZE - 1)) := hnv
    unfold metapage.read metapage.restamp
    simp only [hread_m]
    rw [if_pos hnv']
    simp only [hread_b]
    simp only [hwr]
    rw [List.take_left' hbtake_len]
  refine ⟨h1, fun hnv => ⟨h2 hnv, ?_, ?_⟩, ?_⟩
  · show pageBytes (writeAt f (pair.1 * PAGE_SIZE) (metapage.restamp (pageBytes f pair.2))) pair.1
      = metapage.restamp (pageBytes f pair.2)
    unfold metapage.restamp
    exact pageBytes_writeAt_self f pair.1 _ hlit_len hmpos
  · show metapage.crcValid (metapage.restamp (pageBytes f pair.2))
    unfold metapage.restamp
    exact (crcValid_payload _ hbtake_len).1
  · intro hor
    by_cases hval : metapage.crcValid (pageBytes f pair.1)
    · exact ⟨pageBytes f pair.1, _, f, hval, h1 hval, rfl⟩
    · exact ⟨pageBytes f pair.2, _, _, hor.resolve_left hval, h2 hval, rfl⟩

/-- Witness for C1: a fresh two-page all-zero file, pair `(0, 1)`. -/
theorem spec_C1_witness :
    ((0 : Nat) ≠ 1
      ∧ 0 + 1 ≤ (List.replicate (2 * PAGE_SIZE) 0).length / PAGE_SIZE
      ∧ 1 + 1 ≤ (List.replicate (2 * PAGE_SIZE) 0).length / PAGE_SIZE)
    ∧ ((metapage.crcValid (pageBytes (List.replicate (2 * PAGE_SIZE) 0) 0) →
          metapage.read (List.replicate (2 * PAGE_SIZE) 0) (0, 1)
            = .ok ((pageBytes (List.replicate (2 * PAGE_SIZE) 0) 0).take (PAGE_SIZE - 1),
                List.replicate (2 * PAGE_SIZE) 0))
      ∧ (¬ metapage.crcValid (pageBytes (List.replicate (2 * PAGE_SIZE) 0) 0) →
          metapage.read (List.replicate (2 * PAGE_SIZE) 0) (0, 1)
            = .ok ((pageBytes (List.replicate (2 * PAGE_SIZE) 0) 1).take (PAGE_SIZE - 1),
                writeAt (List.replicate (2 * PAGE_SIZE) 0) (0 * PAGE_SIZE)
                  (metapage.restamp (pageBytes (List.replicate (2 * PAGE_SIZE) 0) 1)))
          ∧ pageBytes (writeAt (List.replicate (2 * PAGE_SIZE) 0) (0 * PAGE_SIZE)
                (metapage.restamp (pageBytes (List.replicate (2 * PAGE_SIZE) 0) 1))) 0
              = metapage.restamp (pageBytes (List.replicate (2 * PAGE_SIZE) 0) 1)
          ∧ metapage.crcValid (metapage.restamp (pageBytes (List.replicate (2 * PAGE_SIZE) 0) 1)))
      ∧ ((metapage.crcValid (pageBytes (List.replicate (2 * PAGE_SIZE) 0) 0)
            ∨ metapage.crcValid (pageBytes (List.replicate (2 * PAGE_SIZE) 0) 1)) →
          ∃ pg out F, metapage.crcValid pg
            ∧ metapage.read (List.replicate (2 * PAGE_SIZE) 0) (0, 1) = .ok (out, F)
            ∧ out = pg.take (PAGE_SIZE - 1))) := by
  have h2 : 0 + 1 ≤ (List.replicate (2 * PAGE_SIZE) 0).length / PAGE_SIZE := by
    rw [List.length_replicate]; decide
  have h3 : 1 + 1 ≤ (List.replicate (2 * PAGE_SIZE) 0).length / PAGE_SIZE := by
    rw [List.length_replicate]; decide
  exact ⟨⟨by decide, h2, h3⟩,
    spec_C1 (List.replicate (2 * PAGE_SIZE) 0) (0, 1) (by decide) h2 h3⟩

/-! ## C10: write_blocks frame property -/

theorem setBytes_getD (bs : List Nat) (l : List Nat) (base k : Nat)
    (h : k < base ∨ base + bs.length ≤ k) :
    (slot.setBytes l base bs).getD k 0 = l.getD k 0 := by
  induction bs generalizing l base with
  | nil => rfl
  | cons b bs ih =>
    show (slot.setBytes (l.set base b) (base + 1) bs).getD k 0 = l.getD k 0
    rw [ih (l.set base b) (base + 1) (by simp at h ⊢; omega)]
    have hne : base ≠ k := by simp at h; omega
    simp [List.getD, List.getElem?_set_ne hne]

theorem write_blocks_loop_getD (blocks : List slot.Block) (pg : List Nat)
    (idx k : Nat)
    (h : k < 3 + 4 * idx ∨ 3 + 4 * idx + 4 * blocks.length ≤ k) :
    (slot.write_blocks_loop pg blocks idx).getD k 0 = pg.getD k 0 := by
  induction blocks generalizing pg idx with
  | nil => rfl
  | cons b rest ih =>
    show (slot.write_blocks_loop
        (slot.setBytes (slot.setBytes pg (3 + 4 * idx) (slot.u16le b.size))
          (3 + 4 * idx + 2) (slot.u16le b.offset)) rest (idx + 1)).getD k 0
      = pg.getD k 0
    rw [ih _ (idx + 1) (by simp at h ⊢; omega)]
    rw [setBytes_getD _ _ _ _ (by simp [slot.u16le] at h ⊢; omega)]
    rw [setBytes_getD _ _ _ _ (by simp [slot.u16le] at h ⊢; omega)]

/-- C10: `write_blocks` touches only byte 0 (the refreshed checksum) and the
serialized slot table at bytes `[3, 23)`; bytes 1, 2 and all bytes in
`[23, PAGE_SIZE)` are unchanged. -/
theorem spec_C10 (pg : List Nat) (blocks : List slot.Block)
    (hp : pg.length = PAGE_SIZE) (hb : blocks.length = 5) (k : Nat)
    (h : k = 1 ∨ k = 2 ∨ (23 ≤ k ∧ k < PAGE_SIZE)) :
    (slot.write_blocks pg blocks).getD k 0 = pg.getD k 0 := by
  unfold slot.write_blocks slot.write_checksum
  have hne : (0 : Nat) ≠ k := by omega
  rw [show ((slot.write_blocks_loop pg blocks 0).set 0
      (integrity.crc slot.CRC_POLY ((slot.write_blocks_loop pg blocks 0).drop 1))).getD k 0
    = (slot.write_blocks_loop pg blocks 0).getD k 0 from by
      simp [List.getD, List.getElem?_set_ne hne]]
  exact write_blocks_loop_getD blocks pg 0 k (by omega)

/-- Witness for C10: the all-zero page, five zero slots, byte 23. -/
theorem spec_C10_witness :
    ((List.replicate PAGE_SIZE 0).length = PAGE_SIZE
      ∧ (List.replicate 5 (slot.Block.mk 0 0)).length = 5
      ∧ ((23 : Nat) = 1 ∨ (23 : Nat) = 2 ∨ (23 ≤ 23 ∧ 23 < PAGE_SIZE)))
    ∧ (slot.write_blocks (List.replicate PAGE_SIZE 0)
          (List.replicate 5 (slot.Block.mk 0 0))).getD 23 0
        = (List.replicate PAGE_SIZE 0).getD 23 0 :=
  ⟨⟨List.length_replicate _ _, List.length_replicate _ _,
      Or.inr (Or.inr ⟨le_refl _, by decide⟩)⟩,
    spec_C10 (List.replicate PAGE_SIZE 0) (List.replicate 5 (slot.Block.mk 0 0))
      (List.length_replicate _ _) (List.length_replicate _ _) 23
      (Or.inr (Or.inr ⟨le_refl _, by decide⟩))⟩

/-! ## The crc loop as a fold over a bit stream

`integrity.crc` drives a `Register`; for reasoning we re-express it as a
left fold of a single step function over the stream of look-ahead bits the
register pops: the bits of the input after the seed byte, followed by the
8-zero-bit flush pad. -/

namespace integrity

/-- One loop iteration of `crc` as a function of the register value `s` and
the incoming look-ahead bit `b`. -/
def stp (poly s b : Nat) : Nat :=
  let s1 := b ||| ((s <<< 1) % 256)
  if s >>> 7 = 1 then s1 ^^^ poly else s1

/-- The stream of look-ahead bits `Register::pop` yields from cursor `c`
within `fuel` loop iterations. -/
def popBitsAux (n : List Nat) : Nat × Nat → Nat → List Nat
  | _, 0 => []
  | c, fuel + 1 =>
    if c.2 > n.length then []
    else (if c.2 < n.length then n.getD c.2 0 >>> c.1 &&& 1 else 0)
      :: popBitsAux n (advanceC c) fuel

/-- MSB-first bits of one byte. -/
def byteBits (b : Nat) : List Nat :=
  [b >>> 7 &&& 1, b >>> 6 &&& 1, b >>> 5 &&& 1, b >>> 4 &&& 1,
   b >>> 3 &&& 1, b >>> 2 &&& 1, b >>> 1 &&& 1, b >>> 0 &&& 1]

/-- MSB-first bits of a byte string. -/
def bitsOf (n : List Nat) : List Nat := (n.map byteBits).flatten

theorem popBitsAux_succ (n : List Nat) (c : Nat × Nat) (fuel : Nat)
    (h : ¬ c.2 > n.length) :
    popBitsAux n c (fuel + 1)
      = (if c.2 < n.length then n.getD c.2 0 >>> c.1 &&& 1 else 0)
        :: popBitsAux n (advanceC c) fuel := by
  simp only [popBitsAux]
  rw [if_neg h]

theorem crcLoop_eq_foldl (poly : Nat) (fuel : Nat) (r : Register) :
    crcLoop poly fuel r
      = List.foldl (stp poly) r.current (popBitsAux r.n r.cursor fuel) := by
  induction fuel generalizing r with
  | zero => rfl
  | succ fuel ih =>
    by_cases hc : r.cursor.2 > r.n.length
    · rw [show crcLoop poly (fuel + 1) r = r.current from by
        unfold crcLoop Register.shift
        rw [if_pos hc]]
      rw [show popBitsAux r.n r.cursor (fuel + 1) = [] from by
        unfold popBitsAux
        rw [if_pos hc]]
      rfl
    · have hshift : r.shift = some (r.current >>> 7,
          ⟨(if r.cursor.2 < r.n.length then r.n.getD r.cursor.2 0 >>> r.cursor.1 &&& 1 else 0)
              ||| ((r.current <<< 1) % 256),
            r.n, advanceC r.cursor⟩) := by
        unfold Register.shift Register.pop
        rw [if_neg hc]
      rw [popBitsAux_succ r.n r.cursor fuel hc, List.foldl_cons]
      show crcLoop poly (fuel + 1) r = _
      unfold crcLoop
      simp only [hshift]
      by_cases hbit : r.current >>> 7 = 1
      · rw [if_pos hbit, ih]
        rw [show stp poly r.current
            (if r.cursor.2 < r.n.length then r.n.getD r.cursor.2 0 >>> r.cursor.1 &&& 1 else 0)
          = ((if r.cursor.2 < r.n.length then r.n.getD r.cursor.2 0 >>> r.cursor.1 &&& 1 else 0)
              ||| ((r.current <<< 1) % 256)) ^^^ poly from by
            unfold stp
            rw [if_pos hbit]]
      · rw [if_neg hbit, ih]
        rw [show stp poly r.current
            (if r.cursor.2 < r.n.length then r.n.getD r.cursor.2 0 >>> r.cursor.1 &&& 1 else 0)
          = (if r.cursor.2 < r.n.length then r.n.getD r.cursor.2 0 >>> r.cursor.1 &&& 1 else 0)
              ||| ((r.current <<< 1) % 256) from by
            unfold stp
            rw [if_neg hbit]]

theorem popBitsAux_byte (n : List Nat) (byi fuel : Nat) (h : byi ≤ n.length) :
    popBitsAux n (7, byi) (fuel + 8)
      = byteBits (if byi < n.length then n.getD byi 0 else 0)
        ++ popBitsAux n (7, byi + 1) fuel := by
  have hng : ¬ ((7, byi) : Nat × Nat).2 > n.length := by simpa using by omega
  rw [show fuel + 8 = (fuel + 7) + 1 from rfl,
    popBitsAux_succ n (7, byi) (fuel + 7) (by simpa using by omega)]
  rw [show advanceC (7, byi) = (6, byi) from rfl]
  rw [show fuel + 7 = (fuel + 6) + 1 from rfl,
    popBitsAux_succ n (6, byi) (fuel + 6) (by simpa using by omega)]
  rw [show advanceC (6, byi) = (5, byi) from rfl]
  rw [show fuel + 6 = (fuel + 5) + 1 from rfl,
    popBitsAux_succ n (5, byi) (fuel + 5) (by simpa using by omega)]
  rw [show advanceC (5, byi) = (4, byi) from rfl]
  rw [show fuel + 5 = (fuel + 4) + 1 from rfl,
    popBitsAux_succ n (4, byi) (fuel + 4) (by simpa using by omega)]
  rw [show advanceC (4, byi) = (3, byi) from rfl]
  rw [show fuel + 4 = (fuel + 3) + 1 from rfl,
    popBitsAux_succ n (3, byi) (fuel + 3) (by simpa using by omega)]
  rw [show advanceC (3, byi) = (2, byi) from rfl]
  rw [show fuel + 3 = (fuel + 2) + 1 from rfl,
    popBitsAux_succ n (2, byi) (fuel + 2) (by simpa using by omega)]
  rw [show advanceC (2, byi) = (1, byi) from rfl]
  rw [show fuel + 2 = (fuel + 1) + 1 from rfl,
    popBitsAux_succ n (1, byi) (fuel + 1) (by simpa using by omega)]
  rw [show advanceC (1, byi) = (0, byi) from rfl]
  rw [popBitsAux_succ n (0, byi) fuel (by simpa using by omega)]
  rw [show advanceC (0, byi) = (7, byi + 1) from rfl]
  by_cases hlt : byi < n.length <;> simp [byteBits, hlt]

theorem popBitsAux_all (n : List Nat) (k byi : Nat) (h1 : 1 ≤ byi)
    (h2 : byi + k = n.length) :
    popBitsAux n (7, byi) (8 * (k + 1))
      = bitsOf (n.drop byi) ++ List.replicate 8 0 := by
  induction k generalizing byi with
  | zero =>
    have hb : byi = n.length := by omega
    rw [show 8 * (0 + 1) = 0 + 8 from rfl,
      popBitsAux_byte n byi 0 (le_of_eq hb), if_neg (by omega)]
    subst hb
    rw [List.drop_length]
    rfl
  | succ k ih =>
    have hlt : byi < n.length := by omega
    rw [show 8 * (k + 1 + 1) = 8 * (k + 1) + 8 from by ring,
      popBitsAux_byte n byi (8 * (k + 1)) (by omega), if_pos hlt,
      ih (byi + 1) (by omega) (by omega)]
    have hdrop : n.drop byi = n.getD byi 0 :: n.drop (byi + 1) := by
      rw [List.getD_eq_getElem n 0 hlt]
      exact List.drop_eq_getElem_cons hlt
    rw [hdrop]
    simp [bitsOf]

/-- `crc` of a nonempty input is the fold of `stp` over the bit stream of
the tail, seeded with the head byte, flushed by eight zero bits. -/
theorem crc_eq_foldBits (poly h : Nat) (t : List Nat) :
    crc poly (h :: t)
      = List.foldl (stp poly) h (bitsOf t ++ List.replicate 8 0) := by
  unfold crc
  rw [crcLoop_eq_foldl]
  show List.foldl (stp poly) h (popBitsAux (h :: t) (7, 1) (8 * (h :: t).length)) = _
  rw [show 8 * (h :: t).length = 8 * (t.length + 1) from by simp,
    popBitsAux_all (h :: t) t.length 1 (le_refl 1) (by simp; omega)]
  rfl

/-! ### GF(2) structure of the step function

`stp` is affine over bitwise XOR: a register difference `d` evolves through
one step as `stepDiff`, independently of the data bits.  For the slot
polynomial `0x07` (odd), `stepDiff` sends nonzero differences to nonzero
differences, which is exactly single-bit-error detection. -/

theorem bit_le_one (x : Nat) : x &&& 1 ≤ 1 := by
  rw [Nat.and_one_is_mod]
  omega

theorem xor_mod_two_pow (x y k : Nat) :
    (x ^^^ y) % 2 ^ k = (x % 2 ^ k) ^^^ (y % 2 ^ k) := by
  apply Nat.eq_of_testBit_eq
  intro i
  simp only [Nat.testBit_mod_two_pow, Nat.testBit_xor]
  by_cases hi : i < k <;> simp [hi]

theorem xor_mod256 (x y : Nat) : (x ^^^ y) % 256 = (x % 256) ^^^ (y % 256) := by
  rw [show (256 : Nat) = 2 ^ 8 from rfl]
  exact xor_mod_two_pow x y 8

theorem xor_mod2 (x y : Nat) : (x ^^^ y) % 2 = (x % 2) ^^^ (y % 2) := by
  rw [show (2 : Nat) = 2 ^ 1 from rfl]
  exact xor_mod_two_pow x y 1

theorem xor_shiftRight (x y k : Nat) :
    (x ^^^ y) >>> k = (x >>> k) ^^^ (y >>> k) := by
  apply Nat.eq_of_testBit_eq
  intro i
  simp [Nat.testBit_shiftRight, Nat.testBit_xor]

theorem xor_shiftLeft (x y : Nat) :
    (x ^^^ y) <<< 1 = (x <<< 1) ^^^ (y <<< 1) := by
  apply Nat.eq_of_testBit_eq
  intro i
  simp only [Nat.testBit_shiftLeft, Nat.testBit_xor]
  by_cases hi : i ≥ 1 <;> simp [hi]

theorem or_eq_xor_of_even (e b : Nat) (he : e % 2 = 0) (hb : b ≤ 1) :
    e ||| b = e ^^^ b := by
  apply Nat.eq_of_testBit_eq
  intro i
  simp only [Nat.testBit_or, Nat.testBit_xor]
  match i with
  | 0 =>
    have h0 : e.testBit 0 = false := by simp [Nat.testBit_zero, he]
    rw [h0]
    simp
  | i + 1 =>
    have hb2 : b < 2 ^ (i + 1) := lt_of_le_of_lt hb (by
      have h2 : (2 : Nat) ^ 1 ≤ 2 ^ (i + 1) := Nat.pow_le_pow_right (by omega) (by omega)
      omega)
    rw [Nat.testBit_lt_two_pow hb2]
    simp

theorem shiftLeft_mod_even (s : Nat) : ((s <<< 1) % 256) % 2 = 0 := by
  rw [Nat.shiftLeft_eq]
  omega

theorem top_le_one (s : Nat) (h : s < 256) : s >>> 7 ≤ 1 := by
  rw [Nat.shiftRight_eq_div_pow]
  norm_num
  omega

theorem xor_left_comm (a b c : Nat) : a ^^^ (b ^^^ c) = b ^^^ (a ^^^ c) := by
  rw [← Nat.xor_assoc, Nat.xor_comm a b, Nat.xor_assoc]

theorem xor_cancel_left (a b : Nat) : a ^^^ (a ^^^ b) = b := by
  rw [← Nat.xor_assoc, Nat.xor_self, Nat.zero_xor]

theorem xor_lt_256 (x y : Nat) (hx : x < 256) (hy : y < 256) : x ^^^ y < 256 := by
  have h : x ^^^ y < 2 ^ 8 := Nat.xor_lt_two_pow hx hy
  exact h

theorem or_lt_256 (x y : Nat) (hx : x < 256) (hy : y < 256) : x ||| y < 256 := by
  have h : x ||| y < 2 ^ 8 := Nat.or_lt_two_pow hx hy
  exact h

/-- The evolution of a register difference through one `stp` step. -/
def stepDiff (poly d : Nat) : Nat :=
  if d >>> 7 = 1 then ((d <<< 1) % 256) ^^^ poly else (d <<< 1) % 256

theorem stp_affine (poly s d b : Nat) (hs : s < 256) (hd : d < 256) (hb : b ≤ 1) :
    stp poly (s ^^^ d) b = stp poly s b ^^^ stepDiff poly d := by
  unfold stp stepDiff
  have hA_even : ((s <<< 1) % 256) % 2 = 0 := shiftLeft_mod_even s
  have hD_even : ((d <<< 1) % 256) % 2 = 0 := shiftLeft_mod_even d
  have hAD : ((s ^^^ d) <<< 1) % 256 = ((s <<< 1) % 256) ^^^ ((d <<< 1) % 256) := by
    rw [xor_shiftLeft, xor_mod256]
  have htop : (s ^^^ d) >>> 7 = (s >>> 7) ^^^ (d >>> 7) := xor_shiftRight s d 7
  have hor : ∀ X, X % 2 = 0 → b ||| X = X ^^^ b := fun X hX => by
    rw [Nat.or_comm, or_eq_xor_of_even X b hX hb]
  have hAD_even : (((s <<< 1) % 256) ^^^ ((d <<< 1) % 256)) % 2 = 0 := by
    rw [xor_mod2, hA_even, hD_even]
    decide
  have hs7 : s >>> 7 = 0 ∨ s >>> 7 = 1 := by
    have := top_le_one s hs
    omega
  have hd7 : d >>> 7 = 0 ∨ d >>> 7 = 1 := by
    have := top_le_one d hd
    omega
  have hne01 : ¬ (0 : Nat) = 1 := by decide
  rcases hs7 with hs7 | hs7 <;> rcases hd7 with hd7 | hd7
  · rw [htop, hs7, hd7, show (0 : Nat) ^^^ 0 = 0 from by decide, hAD,
      if_neg hne01, if_neg hne01, if_neg hne01, hor _ hAD_even, hor _ hA_even]
    simp [Nat.xor_assoc, Nat.xor_comm, xor_left_comm, xor_cancel_left,
      Nat.xor_self, Nat.xor_zero, Nat.zero_xor]
  · rw [htop, hs7, hd7, show (0 : Nat) ^^^ 1 = 1 from by decide, hAD,
      if_pos rfl, if_neg hne01, if_pos rfl, hor _ hAD_even, hor _ hA_even]
    simp [Nat.xor_assoc, Nat.xor_comm, xor_left_comm, xor_cancel_left,
      Nat.xor_self, Nat.xor_zero, Nat.zero_xor]
  · rw [htop, hs7, hd7, show (1 : Nat) ^^^ 0 = 1 from by decide, hAD,
      if_pos rfl, if_pos rfl, if_neg hne01, hor _ hAD_even, hor _ hA_even]
    simp [Nat.xor_assoc, Nat.xor_comm, xor_left_comm, xor_cancel_left,
      Nat.xor_self, Nat.xor_zero, Nat.zero_xor]
  · rw [htop, hs7, hd7, show (1 : Nat) ^^^ 1 = 0 from by decide, hAD,
      if_neg hne01, if_pos rfl, if_pos rfl, hor _ hAD_even, hor _ hA_even]
    simp [Nat.xor_assoc, Nat.xor_comm, xor_left_comm, xor_cancel_left,
      Nat.xor_self, Nat.xor_zero, Nat.zero_xor]

theorem stp_lt (poly s b : Nat) (hp : poly < 256) (hs : s < 256) (hb : b ≤ 1) :
    stp poly s b < 256 := by
  unfold stp
  have hA : (s <<< 1) % 256 < 256 := Nat.mod_lt _ (by omega)
  have h1 : b ||| ((s <<< 1) % 256) < 256 := or_lt_256 _ _ (by omega) hA
  split
  · exact xor_lt_256 _ _ h1 hp
  · exact h1

theorem stepDiff_lt (poly d : Nat) (hp : poly < 256) : stepDiff poly d < 256 := by
  unfold stepDiff
  have hD : (d <<< 1) % 256 < 256 := Nat.mod_lt _ (by omega)
  split
  · exact xor_lt_256 _ _ hD hp
  · exact hD

/-- Iterated difference evolution. -/
def iterDiff (poly : Nat) : Nat → Nat → Nat
  | 0, d => d
  | k + 1, d => iterDiff poly k (stepDiff poly d)

theorem foldl_stp_affine (poly : Nat) (bs : List Nat) (s d : Nat)
    (hp : poly < 256) (hs : s < 256) (hd : d < 256) (hbs : ∀ b ∈ bs, b ≤ 1) :
    List.foldl (stp poly) (s ^^^ d) bs
      = List.foldl (stp poly) s bs ^^^ iterDiff poly bs.length d := by
  induction bs generalizing s d with
  | nil => rfl
  | cons b bs ih =>
    rw [List.foldl_cons, List.foldl_cons,
      stp_affine poly s d b hs hd (hbs b (by simp))]
    rw [show iterDiff poly (b :: bs).length d
        = iterDiff poly bs.length (stepDiff poly d) from rfl]
    exact ih (stp poly s b) (stepDiff poly d)
      (stp_lt poly s b hp hs (hbs b (by simp))) (stepDiff_lt poly d hp)
      (fun x hx => hbs x (by simp [hx]))

theorem foldl_stp_lt (poly : Nat) (bs : List Nat) (s : Nat)
    (hp : poly < 256) (hs : s < 256) (hbs : ∀ b ∈ bs, b ≤ 1) :
    List.foldl (stp poly) s bs < 256 := by
  induction bs generalizing s with
  | nil => exact hs
  | cons b bs ih =>
    rw [List.foldl_cons]
    exact ih (stp poly s b) (stp_lt poly s b hp hs (hbs b (by simp)))
      (fun x hx => hbs x (by simp [hx]))

/-- For the odd polynomial `0x07`, one difference step never kills a nonzero
difference (multiplication by `x` is invertible mod an odd generator). -/
theorem stepDiff7_nonzero (d : Nat) (hd : d < 256) (h0 : d ≠ 0) :
    stepDiff 7 d ≠ 0 := by
  unfold stepDiff
  have hdiv : d >>> 7 = d / 128 := by
    rw [Nat.shiftRight_eq_div_pow]
  have hsl : d <<< 1 = 2 * d := by
    rw [Nat.shiftLeft_eq]
    ring
  split
  · rename_i htop
    rw [hdiv] at htop
    rw [hsl]
    intro hz
    rw [Nat.xor_eq_zero] at hz
    omega
  · rename_i htop
    rw [hdiv] at htop
    rw [hsl]
    omega

theorem iterDiff7_nonzero (k d : Nat) (hd : d < 256) (h0 : d ≠ 0) :
    iterDiff 7 k d < 256 ∧ iterDiff 7 k d ≠ 0 := by
  induction k generalizing d with
  | zero => exact ⟨hd, h0⟩
  | succ k ih =>
    exact ih (stepDiff 7 d) (stepDiff_lt 7 d (by omega)) (stepDiff7_nonzero d hd h0)

theorem foldl_stp_ne (bs : List Nat) (s d : Nat) (hs : s < 256) (hd : d < 256)
    (h0 : d ≠ 0) (hbs : ∀ b ∈ bs, b ≤ 1) :
    List.foldl (stp 7) (s ^^^ d) bs ≠ List.foldl (stp 7) s bs := by
  rw [foldl_stp_affine 7 bs s d (by omega) hs hd hbs]
  intro heq
  have hD := (iterDiff7_nonzero bs.length d hd h0).2
  have hD0 : iterDiff 7 bs.length d
      = List.foldl (stp 7) s bs ^^^ (List.foldl (stp 7) s bs ^^^ iterDiff 7 bs.length d) :=
    (xor_cancel_left _ _).symm
  rw [heq, Nat.xor_self] at hD0
  exact hD hD0

theorem stp_flip (poly s b : Nat) (hb : b ≤ 1) :
    stp poly s (b ^^^ 1) = stp poly s b ^^^ 1 := by
  unfold stp
  have hA_even : ((s <<< 1) % 256) % 2 = 0 := shiftLeft_mod_even s
  have hb1 : b ^^^ 1 ≤ 1 := by
    rcases (by omega : b = 0 ∨ b = 1) with h | h <;> subst h <;> decide
  have h1 : (b ^^^ 1) ||| ((s <<< 1) % 256) = ((s <<< 1) % 256) ^^^ (b ^^^ 1) := by
    rw [Nat.or_comm, or_eq_xor_of_even _ _ hA_even hb1]
  have h2 : b ||| ((s <<< 1) % 256) = ((s <<< 1) % 256) ^^^ b := by
    rw [Nat.or_comm, or_eq_xor_of_even _ _ hA_even hb]
  rw [h1, h2]
  split <;>
    simp [Nat.xor_assoc, Nat.xor_comm, xor_left_comm, xor_cancel_left,
      Nat.xor_self, Nat.xor_zero, Nat.zero_xor]

theorem foldl_flip_ne (pre post : List Nat) (x s : Nat) (hs : s < 256)
    (hx : x ≤ 1) (hpre : ∀ b ∈ pre, b ≤ 1) (hpost : ∀ b ∈ post, b ≤ 1) :
    List.foldl (stp 7) s (pre ++ (x ^^^ 1) :: post)
      ≠ List.foldl (stp 7) s (pre ++ x :: post) := by
  rw [List.foldl_append, List.foldl_append, List.foldl_cons, List.foldl_cons]
  have hs1 : List.foldl (stp 7) s pre < 256 :=
    foldl_stp_lt 7 pre s (by omega) hs hpre
  rw [stp_flip 7 (List.foldl (stp 7) s pre) x hx]
  exact foldl_stp_ne post (stp 7 (List.foldl (stp 7) s pre) x) 1
    (stp_lt 7 _ x (by omega) hs1 hx) (by omega) (by omega) hpost

/-! ### Single-bit corruption changes the crc -/

theorem xor_bit_elem (x m c : Nat) :
    (x ^^^ m) >>> c &&& 1 = (x >>> c &&& 1) ^^^ (m >>> c &&& 1) := by
  rw [xor_shiftRight, Nat.and_xor_distrib_right]

theorem byteBits_le_one (x : Nat) : ∀ b ∈ byteBits x, b ≤ 1 := by
  intro b hb
  simp only [byteBits, List.mem_cons, List.not_mem_nil, or_false] at hb
  rcases hb with rfl | rfl | rfl | rfl | rfl | rfl | rfl | rfl <;> exact bit_le_one _

theorem bitsOf_le_one (n : List Nat) : ∀ b ∈ bitsOf n, b ≤ 1 := by
  intro b hb
  simp only [bitsOf, List.mem_flatten, List.mem_map] at hb
  obtain ⟨l, ⟨x, hx, rfl⟩, hbl⟩ := hb
  exact byteBits_le_one x b hbl

theorem pad_le_one : ∀ b ∈ List.replicate 8 0, b ≤ (1 : Nat) := by
  intro b hb
  rw [List.eq_of_mem_replicate hb]
  omega

/-- Flipping bit `j` of a byte flips exactly one element of its bit list. -/
theorem byteBits_flip (x j : Nat) (hj : j < 8) :
    ∃ pre b post, byteBits x = pre ++ b :: post
      ∧ byteBits (x ^^^ (1 <<< j)) = pre ++ (b ^^^ 1) :: post := by
  interval_cases j
  · refine ⟨[x >>> 7 &&& 1, x >>> 6 &&& 1, x >>> 5 &&& 1, x >>> 4 &&& 1,
      x >>> 3 &&& 1, x >>> 2 &&& 1, x >>> 1 &&& 1], x >>> 0 &&& 1, [], rfl, ?_⟩
    simp only [byteBits, xor_bit_elem,
      show ((1:Nat) <<< 0) >>> 7 &&& 1 = 0 from by decide,
      show ((1:Nat) <<< 0) >>> 6 &&& 1 = 0 from by decide,
      show ((1:Nat) <<< 0) >>> 5 &&& 1 = 0 from by decide,
      show ((1:Nat) <<< 0) >>> 4 &&& 1 = 0 from by decide,
      show ((1:Nat) <<< 0) >>> 3 &&& 1 = 0 from by decide,
      show ((1:Nat) <<< 0) >>> 2 &&& 1 = 0 from by decide,
      show ((1:Nat) <<< 0) >>> 1 &&& 1 = 0 from by decide,
      show ((1:Nat) <<< 0) >>> 0 &&& 1 = 1 from by decide,
      Nat.xor_zero, List.cons_append, List.nil_append]
  · refine ⟨[x >>> 7 &&& 1, x >>> 6 &&& 1, x >>> 5 &&& 1, x >>> 4 &&& 1,
      x >>> 3 &&& 1, x >>> 2 &&& 1], x >>> 1 &&& 1, [x >>> 0 &&& 1], rfl, ?_⟩
    simp only [byteBits, xor_bit_elem,
      show ((1:Nat) <<< 1) >>> 7 &&& 1 = 0 from by decide,
      show ((1:Nat) <<< 1) >>> 6 &&& 1 = 0 from by decide,
      show ((1:Nat) <<< 1) >>> 5 &&& 1 = 0 from by decide,
      show ((1:Nat) <<< 1) >>> 4 &&& 1 = 0 from by decide,
      show ((1:Nat) <<< 1) >>> 3 &&& 1 = 0 from by decide,
      show ((1:Nat) <<< 1) >>> 2 &&& 1 = 0 from by decide,
      show ((1:Nat) <<< 1) >>> 1 &&& 1 = 1 from by decide,
      show ((1:Nat) <<< 1) >>> 0 &&& 1 = 0 from by decide,
      Nat.xor_zero, List.cons_append, List.nil_append]
  · refine ⟨[x >>> 7 &&& 1, x >>> 6 &&& 1, x >>> 5 &&& 1, x >>> 4 &&& 1,
      x >>> 3 &&& 1], x >>> 2 &&& 1, [x >>> 1 &&& 1, x >>> 0 &&& 1], rfl, ?_⟩
    simp only [byteBits, xor_bit_elem,
      show ((1:Nat) <<< 2) >>> 7 &&& 1 = 0 from by decide,
      show ((1:Nat) <<< 2) >>> 6 &&& 1 = 0 from by decide,
      show ((1:Nat) <<< 2) >>> 5 &&& 1 = 0 from by decide,
      show ((1:Nat) <<< 2) >>> 4 &&& 1 = 0 from by decide,
      show ((1:Nat) <<< 2) >>> 3 &&& 1 = 0 from by decide,
      show ((1:Nat) <<< 2) >>> 2 &&& 1 = 1 from by decide,
      show ((1:Nat) <<< 2) >>> 1 &&& 1 = 0 from by decide,
      show ((1:Nat) <<< 2) >>> 0 &&& 1 = 0 from by decide,
      Nat.xor_zero, List.cons_append, List.nil_append]
  · refine ⟨[x >>> 7 &&& 1, x >>> 6 &&& 1, x >>> 5 &&& 1, x >>> 4 &&& 1],
      x >>> 3 &&& 1, [x >>> 2 &&& 1, x >>> 1 &&& 1, x >>> 0 &&& 1], rfl, ?_⟩
    simp only [byteBits, xor_bit_elem,
      show ((1:Nat) <<< 3) >>> 7 &&& 1 = 0 from by decide,
      show ((1:Nat) <<< 3) >>> 6 &&& 1 = 0 from by decide,
      show ((1:Nat) <<< 3) >>> 5 &&& 1 = 0 from by decide,
      show ((1:Nat) <<< 3) >>> 4 &&& 1 = 0 from by decide,
      show ((1:Nat) <<< 3) >>> 3 &&& 1 = 1 from by decide,
      show ((1:Nat) <<< 3) >>> 2 &&& 1 = 0 from by decide,
      show ((1:Nat) <<< 3) >>> 1 &&& 1 = 0 from by decide,
      show ((1:Nat) <<< 3) >>> 0 &&& 1 = 0 from by decide,
      Nat.xor_zero, List.cons_append, List.nil_append]
  · refine ⟨[x >>> 7 &&& 1, x >>> 6 &&& 1, x >>> 5 &&& 1], x >>> 4 &&& 1,
      [x >>> 3 &&& 1, x >>> 2 &&& 1, x >>> 1 &&& 1, x >>> 0 &&& 1], rfl, ?_⟩
    simp only [byteBits, xor_bit_elem,
      show ((1:Nat) <<< 4) >>> 7 &&& 1 = 0 from by decide,
      show ((1:Nat) <<< 4) >>> 6 &&& 1 = 0 from by decide,
      show ((1:Nat) <<< 4) >>> 5 &&& 1 = 0 from by decide,
      show ((1:Nat) <<< 4) >>> 4 &&& 1 = 1 from by decide,
      show ((1:Nat) <<< 4) >>> 3 &&& 1 = 0 from by decide,
      show ((1:Nat) <<< 4) >>> 2 &&& 1 = 0 from by decide,
      show ((1:Nat) <<< 4) >>> 1 &&& 1 = 0 from by decide,
      show ((1:Nat) <<< 4) >>> 0 &&& 1 = 0 from by decide,
      Nat.xor_zero, List.cons_append, List.nil_append]
  · refine ⟨[x >>> 7 &&& 1, x >>> 6 &&& 1], x >>> 5 &&& 1,
      [x >>> 4 &&& 1, x >>> 3 &&& 1, x >>> 2 &&& 1, x >>> 1 &&& 1, x >>> 0 &&& 1],
      rfl, ?_⟩
    simp only [byteBits, xor_bit_elem,
      show ((1:Nat) <<< 5) >>> 7 &&& 1 = 0 from by decide,
      show ((1:Nat) <<< 5) >>> 6 &&& 1 = 0 from by decide,
      show ((1:Nat) <<< 5) >>> 5 &&& 1 = 1 from by decide,
      show ((1:Nat) <<< 5) >>> 4 &&& 1 = 0 from by decide,
      show ((1:Nat) <<< 5) >>> 3 &&& 1 = 0 from by decide,
      show ((1:Nat) <<< 5) >>> 2 &&& 1 = 0 from by decide,
      show ((1:Nat) <<< 5) >>> 1 &&& 1 = 0 from by decide,
      show ((1:Nat) <<< 5) >>> 0 &&& 1 = 0 from by decide,
      Nat.xor_zero, List.cons_append, List.nil_append]
  · refine ⟨[x >>> 7 &&& 1], x >>> 6 &&& 1,
      [x >>> 5 &&& 1, x >>> 4 &&& 1, x >>> 3 &&& 1, x >>> 2 &&& 1, x >>> 1 &&& 1,
        x >>> 0 &&& 1], rfl, ?_⟩
    simp only [byteBits, xor_bit_elem,
      show ((1:Nat) <<< 6) >>> 7 &&& 1 = 0 from by decide,
      show ((1:Nat) <<< 6) >>> 6 &&& 1 = 1 from by decide,
      show ((1:Nat) <<< 6) >>> 5 &&& 1 = 0 from by decide,
      show ((1:Nat) <<< 6) >>> 4 &&& 1 = 0 from by decide,
      show ((1:Nat) <<< 6) >>> 3 &&& 1 = 0 from by decide,
      show ((1:Nat) <<< 6) >>> 2 &&& 1 = 0 from by decide,
      show ((1:Nat) <<< 6) >>> 1 &&& 1 = 0 from by decide,
      show ((1:Nat) <<< 6) >>> 0 &&& 1 = 0 from by decide,
      Nat.xor_zero, List.cons_append, List.nil_append]
  · refine ⟨[], x >>> 7 &&& 1,
      [x >>> 6 &&& 1, x >>> 5 &&& 1, x >>> 4 &&& 1, x >>> 3 &&& 1, x >>> 2 &&& 1,
        x >>> 1 &&& 1, x >>> 0 &&& 1], rfl, ?_⟩
    simp only [byteBits, xor_bit_elem,
      show ((1:Nat) <<< 7) >>> 7 &&& 1 = 1 from by decide,
      show ((1:Nat) <<< 7) >>> 6 &&& 1 = 0 from by decide,
      show ((1:Nat) <<< 7) >>> 5 &&& 1 = 0 from by decide,
      show ((1:Nat) <<< 7) >>> 4 &&& 1 = 0 from by decide,
      show ((1:Nat) <<< 7) >>> 3 &&& 1 = 0 from by decide,
      show ((1:Nat) <<< 7) >>> 2 &&& 1 = 0 from by decide,
      show ((1:Nat) <<< 7) >>> 1 &&& 1 = 0 from by decide,
      show ((1:Nat) <<< 7) >>> 0 &&& 1 = 0 from by decide,
      Nat.xor_zero, List.cons_append, List.nil_append]

/-- Flipping any single bit of any byte of the input changes the CRC-8 under
the slot polynomial `0x07`. -/
theorem crc_flip_ne (data : List Nat) (k j : Nat) (hk : k < data.length)
    (hj : j < 8) (hlt : ∀ b ∈ data, b < 256) :
    crc 7 (data.set k (data.getD k 0 ^^^ (1 <<< j))) ≠ crc 7 data := by
  have hm_lt : (1 <<< j) < 256 := by
    rw [Nat.shiftLeft_eq, one_mul]
    have h2 : (2 : Nat) ^ j < 2 ^ 8 := Nat.pow_lt_pow_right (by omega) hj
    exact h2
  have hm_ne : (1 <<< j) ≠ 0 := by
    rw [Nat.shiftLeft_eq, one_mul]
    exact (Nat.pos_pow_of_pos j (by omega)).ne'
  cases data with
  | nil => simp at hk
  | cons h t =>
    have hh : h < 256 := hlt h (by simp)
    cases k with
    | zero =>
      rw [List.set_cons_zero, List.getD_cons_zero,
        crc_eq_foldBits 7 (h ^^^ (1 <<< j)) t, crc_eq_foldBits 7 h t]
      apply foldl_stp_ne (bitsOf t ++ List.replicate 8 0) h (1 <<< j) hh hm_lt hm_ne
      intro b hb
      rcases List.mem_append.mp hb with hb | hb
      · exact bitsOf_le_one t b hb
      · exact pad_le_one b hb
    | succ k' =>
      have hk' : k' < t.length := by simpa using hk
      rw [List.set_cons_succ, List.getD_cons_succ,
        crc_eq_foldBits 7 h (t.set k' (t.getD k' 0 ^^^ (1 <<< j))),
        crc_eq_foldBits 7 h t]
      have hsplit : t = t.take k' ++ t.getD k' 0 :: t.drop (k' + 1) := by
        conv_lhs => rw [← List.take_append_drop k' t]
        rw [List.getD_eq_getElem t 0 hk', List.drop_eq_getElem_cons hk']
      have hset : t.set k' (t.getD k' 0 ^^^ (1 <<< j))
          = t.take k' ++ (t.getD k' 0 ^^^ (1 <<< j)) :: t.drop (k' + 1) := by
        rw [List.set_eq_take_append_cons_drop, if_pos hk']
      obtain ⟨pre, b, post, hb1, hb2⟩ := byteBits_flip (t.getD k' 0) j hj
      have hbin : b ∈ byteBits (t.getD k' 0) := by
        rw [hb1]
        exact List.mem_append_right _ (List.mem_cons_self _ _)
      have hS1 : bitsOf t ++ List.replicate 8 0
          = (bitsOf (t.take k') ++ pre)
            ++ b :: (post ++ (bitsOf (t.drop (k' + 1)) ++ List.replicate 8 0)) := by
        conv_lhs => rw [hsplit]
        simp only [bitsOf, List.map_append, List.map_cons, List.flatten_append,
          List.flatten_cons, hb1, List.append_assoc, List.cons_append]
      have hS2 : bitsOf (t.set k' (t.getD k' 0 ^^^ (1 <<< j))) ++ List.replicate 8 0
          = (bitsOf (t.take k') ++ pre)
            ++ (b ^^^ 1) :: (post ++ (bitsOf (t.drop (k' + 1)) ++ List.replicate 8 0)) := by
        rw [hset]
        simp only [bitsOf, List.map_append, List.map_cons, List.flatten_append,
          List.flatten_cons, hb2, List.append_assoc, List.cons_append]
      rw [hS1, hS2]
      apply foldl_flip_ne _ _ b h hh (byteBits_le_one _ b hbin)
      · intro y hy
        rcases List.mem_append.mp hy with hy | hy
        · exact bitsOf_le_one _ y hy
        · exact byteBits_le_one _ y (by rw [hb1]; exact List.mem_append_left _ hy)
      · intro y hy
        rcases List.mem_append.mp hy with hy | hy
        · exact byteBits_le_one _ y (by
            rw [hb1]
            exact List.mem_append_right _ (List.mem_cons_of_mem _ hy))
        · rcases List.mem_append.mp hy with hy | hy
          · exact bitsOf_le_one _ y hy
          · exact pad_le_one y hy

end integrity

/-! ## C7: write_blocks checksum and single-bit corruption detection -/

theorem setBytes_length (bs l : List Nat) (base : Nat) :
    (slot.setBytes l base bs).length = l.length := by
  induction bs generalizing l base with
  | nil => rfl
  | cons b bs ih =>
    show (slot.setBytes (l.set base b) (base + 1) bs).length = _
    rw [ih, List.length_set]

theorem write_blocks_loop_length (blocks : List slot.Block) (pg : List Nat)
    (idx : Nat) :
    (slot.write_blocks_loop pg blocks idx).length = pg.length := by
  induction blocks generalizing pg idx with
  | nil => rfl
  | cons b rest ih =>
    show (slot.write_blocks_loop _ rest (idx + 1)).length = _
    rw [ih, setBytes_length, setBytes_length]

theorem setBytes_mem (bs l : List Nat) (base : Nat) (x : Nat)
    (hx : x ∈ slot.setBytes l base bs) : x ∈ l ∨ x ∈ bs := by
  induction bs generalizing l base with
  | nil => exact Or.inl hx
  | cons b bs ih =>
    have hx' : x ∈ slot.setBytes (l.set base b) (base + 1) bs := hx
    rcases ih (l.set base b) (base + 1) hx' with h | h
    · rcases List.mem_or_eq_of_mem_set h with h | h
      · exact Or.inl h
      · exact Or.inr (by simp [h])
    · exact Or.inr (by simp [h])

theorem u16le_lt (v : Nat) : ∀ x ∈ slot.u16le v, x < 256 := by
  intro x hx
  simp only [slot.u16le, List.mem_cons, List.not_mem_nil, or_false] at hx
  rcases hx with rfl | rfl <;> omega

theorem write_blocks_loop_mem (blocks : List slot.Block) (pg : List Nat)
    (idx : Nat) (h : ∀ x ∈ pg, x < 256) :
    ∀ x ∈ slot.write_blocks_loop pg blocks idx, x < 256 := by
  induction blocks generalizing pg idx with
  | nil => exact h
  | cons b rest ih =>
    intro x hx
    have hx' : x ∈ slot.write_blocks_loop
        (slot.setBytes (slot.setBytes pg (3 + 4 * idx) (slot.u16le b.size))
          (3 + 4 * idx + 2) (slot.u16le b.offset)) rest (idx + 1) := hx
    refine ih _ (idx + 1) ?_ x hx'
    intro y hy
    rcases setBytes_mem _ _ _ y hy with hy | hy
    · rcases setBytes_mem _ _ _ y hy with hy | hy
      · exact h y hy
      · exact u16le_lt _ y hy
    · exact u16le_lt _ y hy

theorem getD_zero_set_zero (l : List Nat) (v : Nat) (h : l ≠ []) :
    (l.set 0 v).getD 0 0 = v := by
  cases l with
  | nil => exact absurd rfl h
  | cons a t => rfl

theorem drop_one_set_zero (l : List Nat) (v : Nat) :
    (l.set 0 v).drop 1 = l.drop 1 := by
  cases l <;> rfl

theorem drop_one_set_succ (l : List Nat) (i v : Nat) :
    (l.set (i + 1) v).drop 1 = (l.drop 1).set i v := by
  cases l <;> rfl

theorem getD_drop_one (l : List Nat) (i : Nat) :
    (l.drop 1).getD i 0 = l.getD (i + 1) 0 := by
  cases l <;> rfl

/-- C7: after `write_slots` (`write_blocks`), `verify_checksum` succeeds; and
flipping any single bit of any byte in `[1, PAGE_SIZE)` of the resulting
buffer makes `verify_checksum` report BadChecksum. -/
theorem spec_C7 (pg : List Nat) (blocks : List slot.Block)
    (hp : pg.length = PAGE_SIZE) (hbl : blocks.length = 5)
    (hbytes : ∀ x ∈ pg, x < 256) :
    slot.verify_checksum (slot.write_blocks pg blocks) = Except.ok ()
    ∧ (∀ i j, 1 ≤ i → i < PAGE_SIZE → j < 8 →
        slot.verify_checksum (flipBit (slot.write_blocks pg blocks) i j)
          = Except.error integrity.Error.BadChecksum) := by
  have hS : PAGE_SIZE = 8192 := rfl
  have hQlen : (slot.write_blocks_loop pg blocks 0).length = PAGE_SIZE := by
    rw [write_blocks_loop_length, hp]
  have hQne : slot.write_blocks_loop pg blocks 0 ≠ [] := by
    intro hq
    rw [hq] at hQlen
    simp [PAGE_SIZE] at hQlen
  have hQmem : ∀ x ∈ slot.write_blocks_loop pg blocks 0, x < 256 :=
    write_blocks_loop_mem blocks pg 0 hbytes
  have hP0 : (slot.write_blocks pg blocks).getD 0 0
      = integrity.crc slot.CRC_POLY ((slot.write_blocks_loop pg blocks 0).drop 1) :=
    getD_zero_set_zero _ _ hQne
  have hPdrop : (slot.write_blocks pg blocks).drop 1
      = (slot.write_blocks_loop pg blocks 0).drop 1 := drop_one_set_zero _ _
  have hdatalen : ((slot.write_blocks_loop pg blocks 0).drop 1).length
      = PAGE_SIZE - 1 := by
    rw [List.length_drop, hQlen]
  have hdmem : ∀ x ∈ (slot.write_blocks_loop pg blocks 0).drop 1, x < 256 :=
    fun x hx => hQmem x (List.mem_of_mem_drop hx)
  constructor
  · unfold slot.verify_checksum
    rw [hP0, hPdrop, if_pos rfl]
  · intro i j h1 hi hj
    obtain ⟨i', rfl⟩ : ∃ i', i = i' + 1 := ⟨i - 1, by omega⟩
    have hi' : i' < ((slot.write_blocks_loop pg blocks 0).drop 1).length := by
      omega
    have hflip0 : (flipBit (slot.write_blocks pg blocks) (i' + 1) j).getD 0 0
        = (slot.write_blocks pg blocks).getD 0 0 := by
      unfold flipBit
      simp [List.getD, List.getElem?_set_ne (show i' + 1 ≠ 0 by omega)]
    have hw : (slot.write_blocks pg blocks).getD (i' + 1) 0
        = ((slot.write_blocks_loop pg blocks 0).drop 1).getD i' 0 := by
      rw [← getD_drop_one, hPdrop]
    have hflipdrop : (flipBit (slot.write_blocks pg blocks) (i' + 1) j).drop 1
        = ((slot.write_blocks_loop pg blocks 0).drop 1).set i'
            (((slot.write_blocks_loop pg blocks 0).drop 1).getD i' 0 ^^^ (1 <<< j)) := by
      unfold flipBit
      rw [drop_one_set_succ, hPdrop, hw]
    have hcrcne := integrity.crc_flip_ne
      ((slot.write_blocks_loop pg blocks 0).drop 1) i' j hi' hj hdmem
    unfold slot.verify_checksum
    simp only [hflip0, hP0, hflipdrop]
    rw [if_neg (fun heq => hcrcne heq.symm)]

/-- Witness for C7: the all-zero page and five zero slots (the inner
universally quantified corruption conclusion is retained). -/
theorem spec_C7_witness :
    ((List.replicate PAGE_SIZE 0).length = PAGE_SIZE
      ∧ (List.replicate 5 (slot.Block.mk 0 0)).length = 5
      ∧ (∀ x ∈ List.replicate PAGE_SIZE 0, x < 256))
    ∧ (slot.verify_checksum (slot.write_blocks (List.replicate PAGE_SIZE 0)
          (List.replicate 5 (slot.Block.mk 0 0))) = Except.ok ()
      ∧ (∀ i j, 1 ≤ i → i < PAGE_SIZE → j < 8 →
          slot.verify_checksum (flipBit (slot.write_blocks (List.replicate PAGE_SIZE 0)
              (List.replicate 5 (slot.Block.mk 0 0))) i j)
            = Except.error integrity.Error.BadChecksum)) := by
  have hb : ∀ x ∈ List.replicate PAGE_SIZE 0, x < 256 := by
    intro x hx
    rw [List.eq_of_mem_replicate hx]
    omega
  exact ⟨⟨List.length_replicate _ _, List.length_replicate _ _, hb⟩,
    spec_C7 (List.replicate PAGE_SIZE 0) (List.replicate 5 (slot.Block.mk 0 0))
      (List.length_replicate _ _) (List.length_replicate _ _) hb⟩

end Shepherd
